import Mathlib

/-!
Shallow embedding of `src/main.py` (a Flask app that polls an upstream
lottery API, deduplicates results into a `history` table, and re-exposes
them at `/api/history`), together with theorems settling the spec claims.

The store is modelled as the list of rows of the `history` table.  The
`created_at` column is set by the database default and is never read by
any endpoint or by the fetcher, so it is omitted from the row model.
-/

namespace LotteryMirror

/-- One row of the `history` table: `issue TEXT PRIMARY KEY`,
`code INTEGER`, `open_time TEXT` (main.py lines 35-42). -/
structure DrawRecord where
  issue : String
  code : Int
  open_time : String
deriving DecidableEq, Repr

/-- One item of the upstream JSON list, after Python coercion:
`str(item['issueNumber'])` (`none` = key missing), `int(item['number'])`
(`none` = key missing or not coercible to int), `item['openTime']`
(`none` = key missing) — main.py lines 61-63. -/
structure RawItem where
  issueNumber : Option String
  number : Option Int
  openTime : Option String
deriving DecidableEq, Repr

/-- The three field accesses of main.py lines 61-63; any missing or
malformed field raises, modelled as `none`. -/
def parseItem (it : RawItem) : Option DrawRecord :=
  match it.issueNumber, it.number, it.openTime with
  | some i, some n, some t => some ⟨i, n, t⟩
  | _, _, _ => none

/-- `SELECT issue FROM history WHERE issue = ?` followed by `fetchone()`
(main.py lines 67-68): true iff some row has this issue. -/
def existsIssue (store : List DrawRecord) (i : String) : Bool :=
  store.any (fun r => r.issue == i)

/-- Number of rows whose `issue` equals `i`. -/
def countIssue (store : List DrawRecord) (i : String) : Nat :=
  store.countP (fun r => r.issue == i)

/-- Console messages printed by `fetch_job` (main.py lines 49, 78, 81). -/
inductive LogMsg where
  | fetching
  | saved (n : Nat)
  | error
deriving DecidableEq, Repr

/-- Observable outcome of one `fetch_job` invocation: the committed table
after the cycle, the `new_count` counter, and the printed log lines. -/
structure FetchResult where
  store : List DrawRecord
  new_count : Nat
  log : List LogMsg
deriving DecidableEq, Repr

/-- The `for item in data` loop of main.py lines 60-73, run inside one
transaction: `committed` is the table at cycle start, `pending` the
uncommitted inserts of this cycle (visible to this connection's own
`SELECT`), `count` the `new_count` so far.  A failing field access
(`parseItem = none`) raises, aborting the whole loop (`none`): the
exception is only caught at the cycle boundary (main.py line 80). -/
def processItems (committed : List DrawRecord) :
    List RawItem → List DrawRecord → Nat → Option (List DrawRecord × Nat)
  | [], pending, count => some (pending, count)
  | it :: rest, pending, count =>
    match parseItem it with
    | none => none
    | some rec =>
      if existsIssue (committed ++ pending) rec.issue then
        processItems committed rest pending count
      else
        processItems committed rest (pending ++ [rec]) (count + 1)

/-- One cycle of `fetch_job` (main.py lines 48-81).  The upstream call is
an input: `.error ()` is a non-2xx status (`raise_for_status`) or network
failure, `.ok items` the parsed `data.list`.  "Fetching data..." is
printed unconditionally (line 49).  On any exception the `except` branch
prints the error line and the connection is closed without `commit`, so
the transaction rolls back and the table is unchanged; on success the
single `conn.commit()` (line 75) publishes all pending inserts, and the
"Saved N new records." line is printed iff `new_count > 0` (line 77). -/
def fetch_job (store : List DrawRecord) (upstream : Except Unit (List RawItem)) :
    FetchResult :=
  match upstream with
  | .error _ => ⟨store, 0, [.fetching, .error]⟩
  | .ok items =>
    match processItems store items [] 0 with
    | none => ⟨store, 0, [.fetching, .error]⟩
    | some (pending, count) =>
      ⟨store ++ pending, count,
        if 0 < count then [.fetching, .saved count] else [.fetching]⟩

/-- Why a raced cycle aborted: a field access failed, or an `INSERT` hit
the duplicate-key constraint. -/
inductive RaceErr where
  | parse
  | dup
deriving DecidableEq, Repr

/-- The loop of main.py lines 60-73 under the §5 race: a concurrent
writer commits a record `other` between this cycle's `exists` check for
the item whose issue is `other.issue` and its `INSERT`; that `INSERT`
then raises the duplicate-key constraint violation, which propagates to
the cycle boundary (`.error .dup`). -/
def racedCycle (committed : List DrawRecord) (other : DrawRecord) :
    List RawItem → List DrawRecord → Nat → Except RaceErr (List DrawRecord × Nat)
  | [], pending, count => .ok (pending, count)
  | it :: rest, pending, count =>
    match parseItem it with
    | none => .error .parse
    | some rec =>
      if existsIssue (committed ++ pending) rec.issue then
        racedCycle committed other rest pending count
      else if rec.issue == other.issue then
        .error .dup
      else
        racedCycle committed other rest (pending ++ [rec]) (count + 1)

/-- Result of a raced cycle; `raceFired` records whether the concurrent
insert actually collided with this cycle's own `INSERT`. -/
structure RacedResult where
  store : List DrawRecord
  new_count : Nat
  log : List LogMsg
  raceFired : Bool
deriving DecidableEq, Repr

/-- `fetch_job` under the §5 race.  When the duplicate-key violation
fires, the exception reaches the `except` branch: this cycle's pending
inserts roll back (no `commit`), but the concurrent writer's committed
`other` stays; the process itself continues. -/
def fetch_job_raced (store : List DrawRecord) (items : List RawItem)
    (other : DrawRecord) : RacedResult :=
  match racedCycle store other items [] 0 with
  | .error .dup => ⟨store ++ [other], 0, [.fetching, .error], true⟩
  | .error .parse => ⟨store, 0, [.fetching, .error], false⟩
  | .ok (pending, count) =>
    ⟨store ++ pending, count,
      if 0 < count then [.fetching, .saved count] else [.fetching], false⟩

/-- `ORDER BY issue DESC`: row `a` may precede row `b` iff
`b.issue ≤ a.issue` (text column, lexicographic order). -/
def issueDesc (a b : DrawRecord) : Prop := b.issue ≤ a.issue

instance : DecidableRel issueDesc := fun a b =>
  inferInstanceAs (Decidable (b.issue ≤ a.issue))

instance : IsTotal DrawRecord issueDesc :=
  ⟨fun a b => (le_total b.issue a.issue).imp id id⟩

instance : IsTrans DrawRecord issueDesc :=
  ⟨fun _ _ _ h h' => le_trans h' h⟩

/-- `SELECT issue, code, open_time FROM history ORDER BY issue DESC
LIMIT 50` with `LIMIT` generalized to `limit` (main.py lines 96-101):
the rows sorted by issue descending, truncated to `limit`. -/
def recentRecords (store : List DrawRecord) (limit : Nat) : List DrawRecord :=
  (store.insertionSort issueDesc).take limit

/-- One element of the `/api/history` response list (main.py
lines 110-121): `number` is the stored integer stringified. -/
structure ApiItem where
  issueNumber : String
  number : String
  openTime : String
deriving DecidableEq, Repr

/-- main.py lines 110-121: one stored row formatted for the response. -/
def formatRow (r : DrawRecord) : ApiItem :=
  ⟨r.issue, toString r.code, r.open_time⟩

/-- The JSON (body, HTTP status) returned by `/api/history`: `ok` is the
200 response `{code, msg, data: {totalCount, list}}` (main.py
lines 123-130), `err` is `({"error": message}, status)` from the
`except` branch (line 132). -/
inductive HistoryResponse where
  | ok (code : Nat) (msg : String) (totalCount : Nat) (list : List ApiItem)
  | err (message : String) (status : Nat)
deriving DecidableEq, Repr

/-- Whether the store read inside `get_history` succeeds; `fail msg`
models any exception raised by a store operation, carrying `str(e)`. -/
inductive StoreFault where
  | ok
  | fail (msg : String)
deriving DecidableEq, Repr

/-- The rows read by `get_history` (main.py lines 92-101): on success
the last 50 rows by issue descending, otherwise the raised error. -/
def readRecent (store : List DrawRecord) (fault : StoreFault) :
    Except String (List DrawRecord) :=
  match fault with
  | .ok => .ok (recentRecords store 50)
  | .fail m => .error m

/-- The `/api/history` handler (main.py lines 88-132): formats the rows
read from the store, with `totalCount = len(formatted_list)`; any store
exception becomes `({"error": str(e)}, 500)`. -/
def get_history (store : List DrawRecord) (fault : StoreFault) :
    HistoryResponse :=
  match readRecent store fault with
  | .error m => .err m 500
  | .ok rows =>
    .ok 0 "Success" (rows.map formatRow).length (rows.map formatRow)

/-! ### Helper lemmas about the store and the fetch loop -/

theorem existsIssue_append (a b : List DrawRecord) (i : String) :
    existsIssue (a ++ b) i = (existsIssue a i || existsIssue b i) := by
  simp [existsIssue, List.any_append]

theorem countIssue_append (a b : List DrawRecord) (i : String) :
    countIssue (a ++ b) i = countIssue a i + countIssue b i := by
  simp [countIssue, List.countP_append]

theorem countIssue_eq_zero {s : List DrawRecord} {i : String}
    (h : existsIssue s i = false) : countIssue s i = 0 := by
  rw [countIssue, List.countP_eq_zero]
  rw [existsIssue, List.any_eq_false] at h
  exact h

theorem countIssue_pos {s : List DrawRecord} {i : String}
    (h : existsIssue s i = true) : 1 ≤ countIssue s i := by
  rw [existsIssue, List.any_eq_true] at h
  exact List.countP_pos_iff.mpr h

/-- The fetch loop only appends to its pending inserts. -/
theorem processItems_prefix {c : List DrawRecord} {items : List RawItem}
    {p : List DrawRecord} {k : Nat} {p' : List DrawRecord} {k' : Nat}
    (h : processItems c items p k = some (p', k')) : ∃ q, p' = p ++ q := by
  induction items generalizing p k with
  | nil =>
    simp [processItems] at h
    exact ⟨[], by simp [h.1]⟩
  | cons it rest ih =>
    simp only [processItems] at h
    split at h
    · exact absurd h (by simp)
    · rename_i rec hp
      split at h
      · exact ih h
      · obtain ⟨q, hq⟩ := ih h
        exact ⟨rec :: q, by simp [hq]⟩

/-- A malformed item anywhere in the list makes the whole loop raise. -/
theorem processItems_none_of_bad {c : List DrawRecord} {items : List RawItem}
    (hbad : ∃ it ∈ items, parseItem it = none) :
    ∀ p k, processItems c items p k = none := by
  induction items with
  | nil => simp at hbad
  | cons it rest ih =>
    intro p k
    obtain ⟨x, hx, hpx⟩ := hbad
    cases hp : parseItem it with
    | none => simp [processItems, hp]
    | some rec =>
      simp only [processItems, hp]
      rcases List.mem_cons.mp hx with h | h
      · subst h; rw [hp] at hpx; exact absurd hpx (by simp)
      · have ih' := ih ⟨x, h, hpx⟩
        split
        · exact ih' _ _
        · exact ih' _ _

/-- If every item parses, the loop completes without raising. -/
theorem processItems_isSome {c : List DrawRecord} {items : List RawItem}
    (hwf : ∀ it ∈ items, (parseItem it).isSome = true) :
    ∀ p k, (processItems c items p k).isSome = true := by
  induction items with
  | nil => intro p k; simp [processItems]
  | cons it rest ih =>
    intro p k
    have hit := hwf it (List.mem_cons_self it rest)
    cases hp : parseItem it with
    | none => rw [hp] at hit; simp at hit
    | some rec =>
      have ih' := ih (fun x hx => hwf x (List.mem_cons_of_mem it hx))
      simp only [processItems, hp]
      split
      · exact ih' _ _
      · exact ih' _ _

theorem processItems_mono {c : List DrawRecord} {items : List RawItem}
    {p : List DrawRecord} {k : Nat} {p' : List DrawRecord} {k' : Nat}
    (h : processItems c items p k = some (p', k')) {i : String}
    (hi : existsIssue (c ++ p) i = true) : existsIssue (c ++ p') i = true := by
  obtain ⟨q, hq⟩ := processItems_prefix h
  subst hq
  simp only [existsIssue_append, Bool.or_eq_true] at hi ⊢
  tauto

theorem processItems_complete {c : List DrawRecord} {items : List RawItem}
    {p : List DrawRecord} {k : Nat} {p' : List DrawRecord} {k' : Nat}
    (h : processItems c items p k = some (p', k')) :
    ∀ it ∈ items, ∀ rec, parseItem it = some rec →
      existsIssue (c ++ p') rec.issue = true := by
  induction items generalizing p k with
  | nil => intro it hit; simp at hit
  | cons it0 rest ih =>
    intro it hit rec hrec
    cases hp : parseItem it0 with
    | none => simp only [processItems, hp] at h; exact absurd h (by simp)
    | some rec0 =>
      simp only [processItems, hp] at h
      rcases List.mem_cons.mp hit with heq | hmem
      · subst heq
        rw [hp] at hrec
        injection hrec with hrec
        subst hrec
        split at h
        · rename_i hex
          exact processItems_mono h hex
        · have hex2 : existsIssue (c ++ (p ++ [rec0])) rec0.issue = true := by
            simp [existsIssue_append, existsIssue]
          exact processItems_mono h hex2
      · split at h
        · exact ih h it hmem rec hrec
        · exact ih h it hmem rec hrec

theorem processItems_skip_all {c : List DrawRecord} {items : List RawItem}
    (hex : ∀ it ∈ items, ∀ rec, parseItem it = some rec → existsIssue c rec.issue = true)
    (hwf : ∀ it ∈ items, (parseItem it).isSome = true) :
    ∀ p k, processItems c items p k = some (p, k) := by
  induction items with
  | nil => intro p k; simp [processItems]
  | cons it rest ih =>
    intro p k
    have hit := hwf it (List.mem_cons_self it rest)
    cases hp : parseItem it with
    | none => rw [hp] at hit; simp at hit
    | some rec =>
      have he : existsIssue c rec.issue = true :=
        hex it (List.mem_cons_self it rest) rec hp
      have he2 : existsIssue (c ++ p) rec.issue = true := by
        simp [existsIssue_append, he]
      simp only [processItems, hp, he2, if_true]
      exact ih (fun x hx => hex x (List.mem_cons_of_mem it hx))
        (fun x hx => hwf x (List.mem_cons_of_mem it hx)) p k

theorem processItems_count_le {c : List DrawRecord} {items : List RawItem}
    {p : List DrawRecord} {k : Nat} {p' : List DrawRecord} {k' : Nat} {i : String}
    (h : processItems c items p k = some (p', k'))
    (hle : countIssue (c ++ p) i ≤ 1) : countIssue (c ++ p') i ≤ 1 := by
  induction items generalizing p k with
  | nil =>
    simp [processItems] at h
    rw [← h.1]
    exact hle
  | cons it rest ih =>
    cases hp : parseItem it with
    | none => simp only [processItems, hp] at h; exact absurd h (by simp)
    | some rec =>
      simp only [processItems, hp] at h
      split at h
      · exact ih h hle
      · rename_i hex
        apply ih h
        have hsplit : countIssue (c ++ (p ++ [rec])) i
            = countIssue (c ++ p) i + countIssue [rec] i := by
          rw [← List.append_assoc, countIssue_append]
        by_cases hbi : (rec.issue == i) = true
        · have hii : rec.issue = i := eq_of_beq hbi
          have hexf : existsIssue (c ++ p) rec.issue = false := by
            simpa using hex
          have hz : countIssue (c ++ p) i = 0 := by
            rw [← hii]
            exact countIssue_eq_zero hexf
          have hone : countIssue [rec] i = 1 := by
            simp [countIssue, hbi]
          omega
        · have hzero : countIssue [rec] i = 0 := by
            simp [countIssue, hbi]
          omega

theorem racedCycle_dup {c : List DrawRecord} {o : DrawRecord} {items : List RawItem}
    {p : List DrawRecord} {k : Nat}
    (h : racedCycle c o items p k = .error .dup) :
    existsIssue (c ++ p) o.issue = false := by
  induction items generalizing p k with
  | nil => simp [racedCycle] at h
  | cons it rest ih =>
    cases hp : parseItem it with
    | none => simp only [racedCycle, hp] at h; exact absurd h (by simp)
    | some rec =>
      simp only [racedCycle, hp] at h
      split at h
      · exact ih h
      · rename_i hex
        split at h
        · rename_i hbeq
          have hio : rec.issue = o.issue := eq_of_beq hbeq
          have hexf : existsIssue (c ++ p) rec.issue = false := by
            simpa using hex
          rw [← hio]
          exact hexf
        · have h2 := ih h
          rw [← List.append_assoc, existsIssue_append] at h2
          exact (Bool.or_eq_false_iff.mp h2).1

/-! ### Claim theorems -/

theorem sorted_take {l : List DrawRecord} (n : Nat) :
    List.Sorted issueDesc ((l.insertionSort issueDesc).take n) :=
  List.Pairwise.sublist (List.take_sublist n _) (List.sorted_insertionSort issueDesc l)

/-- C2: `recentRecords n` is sorted by issue descending and has length
`min n (total stored)`; the history endpoint reads it with `n = 50`. -/
theorem c2_recentRecords_sorted_len (store : List DrawRecord) (n : Nat) :
    List.Sorted issueDesc (recentRecords store n) ∧
    (recentRecords store n).length = min n store.length ∧
    readRecent store .ok = .ok (recentRecords store 50) := by
  refine ⟨sorted_take n, ?_, rfl⟩
  rw [recentRecords, List.length_take, List.length_insertionSort]

/-- C3: starting empty, one cycle over the single upstream item
`{issueNumber:"100", number:7, openTime:"2024-01-01T00:00:00"}` makes
`/api/history` return exactly `{code:0, msg:"Success", data:
{totalCount:1, list:[{issueNumber:"100", number:"7",
openTime:"2024-01-01T00:00:00"}]}}`, the number stringified. -/
theorem c3_round_trip :
    get_history (fetch_job []
        (.ok [⟨some "100", some 7, some "2024-01-01T00:00:00"⟩])).store .ok
      = .ok 0 "Success" 1 [⟨"100", "7", "2024-01-01T00:00:00"⟩] := rfl

/-- C6: a cycle whose upstream request fails leaves the store unchanged,
only logs the failure, and a subsequent successful cycle behaves exactly
as it would have from the original store. -/
theorem c6_upstream_failure_isolated (store : List DrawRecord)
    (items : List RawItem) :
    (fetch_job store (.error ())).store = store ∧
    (fetch_job store (.error ())).log = [.fetching, .error] ∧
    fetch_job (fetch_job store (.error ())).store (.ok items)
      = fetch_job store (.ok items) :=
  ⟨rfl, rfl, rfl⟩

/-- C8: a failing store read makes `/api/history` answer
`{"error": msg}` with HTTP 500, carrying only the exception's textual
message; every response of the handler is either that error shape or the
code-0 success shape. -/
theorem c8_store_error_response (store : List DrawRecord) (msg : String) :
    get_history store (.fail msg) = .err msg 500 ∧
    ∀ f : StoreFault,
      (∃ tc l, get_history store f = .ok 0 "Success" tc l) ∨
      ∃ m, get_history store f = .err m 500 := by
  refine ⟨rfl, ?_⟩
  intro f
  cases f with
  | ok => exact Or.inl ⟨_, _, rfl⟩
  | fail m => exact Or.inr ⟨m, rfl⟩

/-- C10: every successful `/api/history` response has
`totalCount = len(list)`, which is `min 50 (total stored)` — at most 50,
and not the total number of stored records. -/
theorem c10_totalCount_is_list_length (store : List DrawRecord) :
    ∃ l : List ApiItem,
      get_history store .ok = .ok 0 "Success" l.length l ∧
      l.length = min 50 store.length := by
  refine ⟨(recentRecords store 50).map formatRow, rfl, ?_⟩
  rw [List.length_map, recentRecords, List.length_take, List.length_insertionSort]

/-- C1: with a well-formed upstream response and a deduplicated starting
store, running the cycle twice inserts each distinct issue exactly once:
after the first run every issue of the response is stored exactly once,
and the second run changes nothing and counts zero new records. -/
theorem c1_fetch_idempotent (store : List DrawRecord) (items : List RawItem)
    (hwf : ∀ it ∈ items, (parseItem it).isSome = true)
    (hdedup : ∀ i, countIssue store i ≤ 1) :
    (fetch_job (fetch_job store (.ok items)).store (.ok items)).new_count = 0 ∧
    (fetch_job (fetch_job store (.ok items)).store (.ok items)).store
      = (fetch_job store (.ok items)).store ∧
    ∀ it ∈ items, ∀ rec, parseItem it = some rec →
      countIssue (fetch_job store (.ok items)).store rec.issue = 1 := by
  have h1some := processItems_isSome (c := store) hwf [] 0
  obtain ⟨⟨p1, k1⟩, h1⟩ : ∃ r, processItems store items [] 0 = some r :=
    Option.isSome_iff_exists.mp h1some
  have hstore1 : (fetch_job store (.ok items)).store = store ++ p1 := by
    simp [fetch_job, h1]
  have hcomp := processItems_complete h1
  have h2 : processItems (store ++ p1) items [] 0 = some ([], 0) :=
    processItems_skip_all hcomp hwf [] 0
  refine ⟨?_, ?_, ?_⟩
  · rw [hstore1]; simp [fetch_job, h2]
  · rw [hstore1]; simp [fetch_job, h2]
  · intro it hit rec hrec
    rw [hstore1]
    have hle : countIssue (store ++ p1) rec.issue ≤ 1 := by
      apply processItems_count_le h1
      simpa using hdedup rec.issue
    have hge : 1 ≤ countIssue (store ++ p1) rec.issue :=
      countIssue_pos (hcomp it hit rec hrec)
    omega

theorem c1_fetch_idempotent_witness :
    (fetch_job (fetch_job [] (.ok [⟨some "100", some 7, some "t"⟩])).store
      (.ok [⟨some "100", some 7, some "t"⟩])).new_count = 0 ∧
    countIssue (fetch_job [] (.ok [⟨some "100", some 7, some "t"⟩])).store "100" = 1 := by
  have h := c1_fetch_idempotent [] [⟨some "100", some 7, some "t"⟩]
    (by decide) (fun i => by simp [countIssue])
  exact ⟨h.1, h.2.2 ⟨some "100", some 7, some "t"⟩ (by simp) ⟨"100", 7, "t"⟩ rfl⟩

/-- C4 counterexample: store empty, upstream items for issues "100" and
"101", concurrent writer commits issue "100" between check and insert.
The cycle does NOT continue past the raced item: the final store is just
the concurrent record, and the well-formed item "101" was never
inserted — refuting "the cycle continues past that item". -/
theorem c4_counterexample :
    (fetch_job_raced [] [⟨some "100", some 7, some "t"⟩, ⟨some "101", some 8, some "u"⟩]
        ⟨"100", 9, "s"⟩).store = [⟨"100", 9, "s"⟩] ∧
    existsIssue (fetch_job_raced [] [⟨some "100", some 7, some "t"⟩,
        ⟨some "101", some 8, some "u"⟩] ⟨"100", 9, "s"⟩).store "101" = false :=
  ⟨rfl, rfl⟩

/-- C4 amended: when the duplicate-key race fires, the violation is
caught at the cycle boundary: the cycle's own pending inserts roll back
(final store is the old store plus only the concurrent writer's record),
the store ends with exactly one record for that issue, and the error is
only logged — the process survives, but the cycle does not continue. -/
theorem c4_race_aborts_cycle (store : List DrawRecord) (items : List RawItem)
    (other : DrawRecord)
    (h : (fetch_job_raced store items other).raceFired = true) :
    (fetch_job_raced store items other).store = store ++ [other] ∧
    countIssue (fetch_job_raced store items other).store other.issue = 1 ∧
    (fetch_job_raced store items other).log = [.fetching, .error] := by
  cases hrc : racedCycle store other items [] 0 with
  | error e =>
    cases e with
    | parse => simp [fetch_job_raced, hrc] at h
    | dup =>
      have hexf : existsIssue store other.issue = false := by
        have h0 := racedCycle_dup hrc
        simpa using h0
      have hst : (fetch_job_raced store items other).store = store ++ [other] := by
        simp [fetch_job_raced, hrc]
      refine ⟨hst, ?_, by simp [fetch_job_raced, hrc]⟩
      rw [hst, countIssue_append, countIssue_eq_zero hexf]
      simp [countIssue]
  | ok pc =>
    obtain ⟨pending, count⟩ := pc
    simp [fetch_job_raced, hrc] at h

theorem c4_race_aborts_cycle_witness :
    (fetch_job_raced [] [⟨some "300", some 1, some "t"⟩] ⟨"300", 2, "u"⟩).store
      = [⟨"300", 2, "u"⟩] ∧
    countIssue (fetch_job_raced [] [⟨some "300", some 1, some "t"⟩]
      ⟨"300", 2, "u"⟩).store "300" = 1 ∧
    (fetch_job_raced [] [⟨some "300", some 1, some "t"⟩] ⟨"300", 2, "u"⟩).log
      = [.fetching, .error] :=
  c4_race_aborts_cycle [] [⟨some "300", some 1, some "t"⟩] ⟨"300", 2, "u"⟩ rfl

/-- C5 counterexample: a malformed first item (missing issueNumber)
prevents the well-formed second item "200" from being inserted: the
whole cycle aborts with an empty commit — refuting per-item isolation. -/
theorem c5_counterexample :
    (fetch_job [] (.ok [⟨none, some 3, some "t"⟩, ⟨some "200", some 4, some "u"⟩])).store
      = [] ∧
    existsIssue (fetch_job [] (.ok [⟨none, some 3, some "t"⟩,
        ⟨some "200", some 4, some "u"⟩])).store "200" = false :=
  ⟨rfl, rfl⟩

/-- C5 amended: an item missing or malforming a required field aborts
the whole cycle, not just that item: the exception reaches the cycle
boundary, the transaction is never committed, so the store is unchanged,
zero records are counted, and the error is logged. -/
theorem c5_malformed_aborts_cycle (store : List DrawRecord)
    (items : List RawItem) (hbad : ∃ it ∈ items, parseItem it = none) :
    fetch_job store (.ok items) = ⟨store, 0, [.fetching, .error]⟩ := by
  simp [fetch_job, processItems_none_of_bad hbad]

theorem c5_malformed_aborts_cycle_witness :
    fetch_job [⟨"050", 2, "s"⟩] (.ok [⟨none, some 3, some "t"⟩])
      = ⟨[⟨"050", 2, "s"⟩], 0, [.fetching, .error]⟩ :=
  c5_malformed_aborts_cycle _ _ ⟨⟨none, some 3, some "t"⟩, by simp, rfl⟩

/-- C7 counterexample: a successful cycle with zero new records does not
log nothing — it still prints the unconditional "Fetching data..." line
(main.py line 49). -/
theorem c7_counterexample :
    (fetch_job [] (.ok [])).new_count = 0 ∧ (fetch_job [] (.ok [])).log ≠ [] :=
  ⟨rfl, by decide⟩

/-- Whether a log line is the "Saved N new records." message. -/
def isSavedMsg : LogMsg → Bool
  | .saved _ => true
  | _ => false

/-- C7 amended: the saved-count line is logged exactly when the cycle
inserted more than zero records (and then carries that count), but every
cycle also logs the unconditional "Fetching data..." line, so a
zero-insert cycle still logs that line rather than nothing. -/
theorem c7_saved_logged_iff_positive (store : List DrawRecord)
    (upstream : Except Unit (List RawItem)) :
    LogMsg.fetching ∈ (fetch_job store upstream).log ∧
    ((fetch_job store upstream).log.any isSavedMsg
      = decide (0 < (fetch_job store upstream).new_count)) ∧
    (0 < (fetch_job store upstream).new_count →
      LogMsg.saved (fetch_job store upstream).new_count
        ∈ (fetch_job store upstream).log) := by
  cases upstream with
  | error e => simp [fetch_job, isSavedMsg]
  | ok items =>
    cases hpr : processItems store items [] 0 with
    | none => simp [fetch_job, hpr, isSavedMsg]
    | some pc =>
      obtain ⟨pending, count⟩ := pc
      by_cases hc : 0 < count
      · simp [fetch_job, hpr, hc, isSavedMsg]
      · simp [fetch_job, hpr, hc, isSavedMsg]

theorem c7_saved_logged_iff_positive_witness :
    LogMsg.saved 1 ∈ (fetch_job [] (.ok [⟨some "400", some 5, some "t"⟩])).log :=
  (c7_saved_logged_iff_positive [] (.ok [⟨some "400", some 5, some "t"⟩])).2.2
    (by decide)

/-- C9: the transaction commits only at the end of the cycle, so any
error after the connection opens persists nothing from that cycle: a
malformed item rolls back every record processed earlier (left), and a
duplicate-key insert failure likewise drops this cycle's own pending
inserts, of the raced issue and of every item before it (right). -/
theorem c9_cycle_all_or_nothing (store : List DrawRecord)
    (items : List RawItem) (other : DrawRecord) :
    (processItems store items [] 0 = none →
      fetch_job store (.ok items) = ⟨store, 0, [.fetching, .error]⟩) ∧
    ((fetch_job_raced store items other).raceFired = true →
      (fetch_job_raced store items other).store = store ++ [other]) := by
  constructor
  · intro h
    simp [fetch_job, h]
  · intro h
    cases hrc : racedCycle store other items [] 0 with
    | error e =>
      cases e with
      | parse => simp [fetch_job_raced, hrc] at h
      | dup => simp [fetch_job_raced, hrc]
    | ok pc =>
      obtain ⟨pending, count⟩ := pc
      simp [fetch_job_raced, hrc] at h

theorem c9_cycle_all_or_nothing_witness :
    fetch_job [⟨"099", 1, "t"⟩]
        (.ok [⟨some "100", some 7, some "t"⟩, ⟨none, none, none⟩])
      = ⟨[⟨"099", 1, "t"⟩], 0, [.fetching, .error]⟩ :=
  (c9_cycle_all_or_nothing [⟨"099", 1, "t"⟩]
    [⟨some "100", some 7, some "t"⟩, ⟨none, none, none⟩] ⟨"x", 0, "y"⟩).1 rfl

end LotteryMirror
